import Mathlib

/-!
# Attendance and leave server

A shallow embedding of the request handlers of `server.js` (the Express routes
`/api/attendance/punch`, `/api/attendance`, `/api/leave-requests`,
`/api/leave-requests/:id`, the counts of the admin branch of `/api/dashboard`)
and of the middleware `authenticateToken`, over an explicit store holding the
`attendance` and `leave_requests` tables, with theorems about their behaviour.

Modelling conventions.

* A handler runs after `authenticateToken`; it receives the verified identity
  `req.user` as an `AuthUser`.
* The server clock is an input of each request: `today` (the date text
  `YYYY-MM-DD`, as a day number) and `currentTime` (the text `HH:MM:SS`, as
  seconds since midnight, below 86400). The local time zone of the process, by
  which `new Date(text)` reads such texts, is the argument `zone`.
* Store calls succeed: the `if (err)` branches answering 500 are not modelled.
* A table is the list of its rows in insertion (rowid) order. Table `users` is
  not written by these handlers and is not part of the store; the queries that
  read it take it as an argument.
* `Number` arithmetic is IEEE 754 double precision: the quotient
  `(punchOut - punchIn) / (1000 * 60 * 60)` is rounded to 53 significant bits
  (ties to even) and `toFixed(2)` rounds the exact value of that double.
-/

namespace AttendanceServer

/-! ## Data model -/

/-- Verified token payload, as far as the handlers read it: `req.user.id` and
`req.user.role`. -/
structure AuthUser where
  id : Nat
  role : String
deriving DecidableEq, Repr

/-- A `TIME` value `HH:MM:SS`, as seconds since midnight. -/
abbrev TimeOfDay := Fin 86400

/-- The text returned by `totalHours.toFixed(2)`: either `NaN`, or an optional
minus sign followed by a decimal with two fraction digits, kept as its number
of hundredths. -/
inductive HoursText where
  | nan
  | num (neg : Bool) (hundredths : Nat)
deriving DecidableEq, Repr

/-- A row of table `attendance`. Column `total_hours` holds the number written
as the `toFixed(2)` text bound by the punch-out `UPDATE`. -/
structure AttendanceRecord where
  id : Nat
  user_id : Nat
  date : Nat
  punch_in : Option TimeOfDay
  punch_out : Option TimeOfDay
  total_hours : Option HoursText
  status : String
deriving DecidableEq, Repr

/-- A row of table `leave_requests`. Dates are day numbers, `applied_at` is the
database clock at insertion. -/
structure LeaveRequest where
  id : Nat
  user_id : Nat
  leave_type : String
  start_date : Nat
  end_date : Nat
  reason : String
  status : String
  applied_at : Nat
  approved_by : Option Nat
deriving DecidableEq, Repr

/-- The two tables the handlers write, each with its `AUTOINCREMENT` counter
(the largest id ever handed out, as kept in `sqlite_sequence`). -/
structure Store where
  attendance : List AttendanceRecord
  attendanceSeq : Nat
  leave_requests : List LeaveRequest
  leaveSeq : Nat
deriving DecidableEq, Repr

/-- The store right after the tables are created. -/
def emptyStore : Store := ⟨[], 0, [], 0⟩

/-- The id `AUTOINCREMENT` gives the next row: one more than the largest id in
the table or ever used. -/
def nextId (ids : List Nat) (seq : Nat) : Nat :=
  ids.foldr max seq + 1

/-- A row of table `users`. -/
structure User where
  id : Nat
  employee_id : Option String
  name : String
  email : String
  password : String
  role : String
  department : Option String
  created_at : Nat
deriving DecidableEq, Repr

/-- A row answered by `GET /api/leave-requests`: the columns of the request
and, in the admin query only, `employee_name` and `employee_id` of the joined
user. -/
structure LeaveRow where
  request : LeaveRequest
  employee : Option (String × Option String)
deriving DecidableEq, Repr

/-- JSON bodies of the successful answers. -/
inductive Body where
  | punchedIn (time : TimeOfDay)
  | punchedOut (time : TimeOfDay) (totalHours : HoursText)
  | attendanceRows (rows : List AttendanceRecord)
  | leaveSubmitted (id : Nat)
  | leaveUpdated
  | leaveRequests (rows : List LeaveRow)
deriving DecidableEq, Repr

/-- An HTTP answer: `res.json(body)` with status 200, or
`res.status(code).json(error)`. -/
inductive Response where
  | json (body : Body)
  | fail (status : Nat) (error : String)
deriving DecidableEq, Repr

/-! ## Double precision model of the elapsed hours -/

/-- Fuelled `⌊log2 n⌋` (0 for `n < 2`). -/
def floorLog2Aux : Nat → Nat → Nat
  | 0, _ => 0
  | fuel + 1, n => if n < 2 then 0 else floorLog2Aux fuel (n / 2) + 1

/-- Binary logarithm `⌊log2 n⌋` of a positive number. -/
def floorLog2 (n : Nat) : Nat := floorLog2Aux n n

/-- Nearest integer to `a / b`, a tie going to the even neighbour. -/
def roundNearestEven (a b : Nat) : Nat :=
  if 2 * (a % b) < b then a / b
  else if b < 2 * (a % b) then a / b + 1
  else if (a / b) % 2 = 0 then a / b else a / b + 1

/-- Binary exponent `⌊log2 (p / q)⌋` of the positive quotient `p / q`. -/
def binaryExponent (p q : Nat) : Int :=
  if q * 2 ^ floorLog2 p ≤ p * 2 ^ floorLog2 q
  then (floorLog2 p : Int) - (floorLog2 q : Int)
  else (floorLog2 p : Int) - (floorLog2 q : Int) - 1

/-- A non-negative double: the value is `mant / 2 ^ scale`. -/
structure Dyadic where
  mant : Nat
  scale : Int
deriving DecidableEq, Repr

/-- The double nearest to `p / q` (`q > 0`), its mantissa scaled to 53 bits.
The exponent range of doubles is not modelled: a difference of two `Date`s of
one day divided by 3600000 stays far inside it. -/
def divDouble (p q : Nat) : Dyadic :=
  if p = 0 then ⟨0, 0⟩
  else if 0 ≤ 52 - binaryExponent p q
  then ⟨roundNearestEven (p * 2 ^ (52 - binaryExponent p q).toNat) q, 52 - binaryExponent p q⟩
  else ⟨roundNearestEven p (q * 2 ^ (binaryExponent p q - 52).toNat), 52 - binaryExponent p q⟩

/-- Hundredths printed by `x.toFixed(2)` for a double `x ≥ 0`: the integer `n`
with `n / 100` nearest to the exact `x`, the larger one on a tie. -/
def toFixed2 (x : Dyadic) : Nat :=
  if 0 ≤ x.scale
  then (200 * x.mant + 2 ^ x.scale.toNat) / 2 ^ (x.scale.toNat + 1)
  else 100 * x.mant * 2 ^ (-x.scale).toNat

/-- The local time zone of the server process: `zone date t` is the offset
from UTC, in milliseconds, that `new Date(text)` applies when it reads the text
`date t` as a local time. It changes within a day where the local clock is
changed (daylight saving); the offsets of actual zones are below a day in
size. -/
abbrev Zone := Nat → TimeOfDay → Int

/-- The zone whose local time is UTC all year. -/
def utcZone : Zone := fun _ _ => 0

/-- A zone five hours behind UTC whose clock is put forward by one hour at
02:00:00 of day 100: four hours behind from then on that day. -/
def springZone : Zone :=
  fun date t => if date = 100 ∧ 7200 ≤ t.val then -14400000 else -18000000

/-- Epoch milliseconds of `new Date(date + ' ' + time)`: the local date and
time, less the offset of the zone at that local time. -/
def epochMs (zone : Zone) (date : Nat) (t : TimeOfDay) : Int :=
  86400000 * (date : Int) + 1000 * (t.val : Int) - zone date t

/-- Milliseconds `punchOut - punchIn` between the two `Date`s built from the
same `today` and the times `record.punch_in` and `currentTime`. -/
def elapsedMs (zone : Zone) (today : Nat) (punchIn currentTime : TimeOfDay) : Int :=
  epochMs zone today currentTime - epochMs zone today punchIn

/-- The text `totalHours.toFixed(2)` of the punch-out branch. A `NULL`
`punch_in` makes an invalid `Date`, hence `NaN`. -/
def hoursText (zone : Zone) (today : Nat) (punch_in : Option TimeOfDay)
    (currentTime : TimeOfDay) : HoursText :=
  match punch_in with
  | none => .nan
  | some t1 =>
    .num (decide (elapsedMs zone today t1 currentTime < 0))
      (toFixed2 (divDouble (elapsedMs zone today t1 currentTime).natAbs 3600000))

/-! ## Handlers -/

/-- The row selected by
`SELECT * FROM attendance WHERE user_id = ? AND date = ? AND punch_out IS NULL`
through `db.get`: the first match. -/
def openRecord (s : Store) (userId today : Nat) : Option AttendanceRecord :=
  s.attendance.find? (fun r => decide (r.user_id = userId ∧ r.date = today ∧ r.punch_out = none))

/-- Effect of `UPDATE attendance SET punch_out = ?, total_hours = ? WHERE id = ?`. -/
def closeRecord (id : Nat) (currentTime : TimeOfDay) (hours : HoursText)
    (r : AttendanceRecord) : AttendanceRecord :=
  if r.id = id then { r with punch_out := some currentTime, total_hours := some hours } else r

/-- Handler of `POST /api/attendance/punch`. -/
def punch (zone : Zone) (s : Store) (user : AuthUser) (type : String) (today : Nat)
    (currentTime : TimeOfDay) : Response × Store :=
  if type = "in" then
    (.json (.punchedIn currentTime),
      { s with
        attendance := s.attendance ++
          [⟨nextId (s.attendance.map (·.id)) s.attendanceSeq, user.id, today,
            some currentTime, none, none, "present"⟩]
        attendanceSeq := nextId (s.attendance.map (·.id)) s.attendanceSeq })
  else
    match openRecord s user.id today with
    | none => (.fail 400 "No punch-in record found", s)
    | some record =>
      (.json (.punchedOut currentTime (hoursText zone today record.punch_in currentTime)),
        { s with
          attendance := s.attendance.map
            (closeRecord record.id currentTime (hoursText zone today record.punch_in currentTime)) })

/-- Rows of `SELECT * FROM attendance WHERE user_id = ? ORDER BY date DESC LIMIT 30`;
rows of one date keep their table order. -/
def attendanceOf (s : Store) (userId : Nat) : List AttendanceRecord :=
  ((s.attendance.filter (fun r => decide (r.user_id = userId))).insertionSort
    (fun a b => b.date ≤ a.date)).take 30

/-- Handler of `GET /api/attendance`; `queryUserId` is `req.query.user_id`,
`none` when absent or empty. -/
def listAttendance (s : Store) (user : AuthUser) (queryUserId : Option Nat) : Response :=
  .json (.attendanceRows (attendanceOf s
    (if user.role = "admin" then queryUserId.getD user.id else user.id)))

/-- Handler of `POST /api/leave-requests`; `now` is `CURRENT_TIMESTAMP`. -/
def submitLeave (s : Store) (user : AuthUser) (leave_type : String)
    (start_date end_date : Nat) (reason : String) (now : Nat) : Response × Store :=
  (.json (.leaveSubmitted (nextId (s.leave_requests.map (·.id)) s.leaveSeq)),
    { s with
      leave_requests := s.leave_requests ++
        [⟨nextId (s.leave_requests.map (·.id)) s.leaveSeq, user.id, leave_type,
          start_date, end_date, reason, "pending", now, none⟩]
      leaveSeq := nextId (s.leave_requests.map (·.id)) s.leaveSeq })

/-- Effect of `UPDATE leave_requests SET status = ?, approved_by = ? WHERE id = ?`. -/
def setStatus (id : Nat) (status : String) (resolver : Nat) (r : LeaveRequest) : LeaveRequest :=
  if r.id = id then { r with status := status, approved_by := some resolver } else r

/-- Handler of `PUT /api/leave-requests/:id`. -/
def resolveLeave (s : Store) (user : AuthUser) (id : Nat) (status : String) :
    Response × Store :=
  if user.role ≠ "admin" then (.fail 403 "Admin access required", s)
  else
    (.json .leaveUpdated,
      { s with leave_requests := s.leave_requests.map (setStatus id status user.id) })

/-- Rows of `leave_requests lr JOIN users u ON lr.user_id = u.id`, with the
selected columns `lr.*, u.name as employee_name, u.employee_id`. -/
def joinUsers (users : List User) (requests : List LeaveRequest) : List LeaveRow :=
  requests.flatMap (fun lr =>
    (users.filter (fun u => decide (lr.user_id = u.id))).map
      (fun u => ⟨lr, some (u.name, u.employee_id)⟩))

/-- Effect of `ORDER BY applied_at DESC`; rows of one timestamp keep their order. -/
def orderByApplied (rows : List LeaveRow) : List LeaveRow :=
  rows.insertionSort (fun a b => b.request.applied_at ≤ a.request.applied_at)

/-- Handler of `GET /api/leave-requests`; `users` is table `users`. -/
def listRequests (users : List User) (s : Store) (user : AuthUser) : Response :=
  if user.role = "admin" then
    .json (.leaveRequests (orderByApplied (joinUsers users s.leave_requests)))
  else
    .json (.leaveRequests (orderByApplied
      ((s.leave_requests.filter (fun r => decide (r.user_id = user.id))).map
        (fun lr => ⟨lr, none⟩))))

/-- Result of
`SELECT COUNT(*) as total_employees FROM users WHERE role = "employee"`. -/
def totalEmployees (users : List User) : Nat :=
  users.countP (fun u => decide (u.role = "employee"))

/-- Result of
`SELECT COUNT(*) as present_today FROM attendance WHERE date = date("now") AND punch_in IS NOT NULL`;
`today` is `date("now")`. -/
def presentToday (s : Store) (today : Nat) : Nat :=
  s.attendance.countP (fun r => decide (r.date = today ∧ r.punch_in ≠ none))

/-- Result of
`SELECT COUNT(*) as pending_leaves FROM leave_requests WHERE status = "pending"`. -/
def pendingLeaves (s : Store) : Nat :=
  s.leave_requests.countP (fun r => decide (r.status = "pending"))

/-- The counts of the admin branch of `GET /api/dashboard`. The fourth field
of the answer, `avgHours` (an average of doubles), is not modelled. -/
structure AdminDashboard where
  totalEmployees : Nat
  presentToday : Nat
  pendingLeaves : Nat
deriving DecidableEq, Repr

/-- Admin branch of the handler of `GET /api/dashboard`. -/
def adminDashboard (users : List User) (s : Store) (today : Nat) : AdminDashboard :=
  ⟨totalEmployees users, presentToday s today, pendingLeaves s⟩

/-- The pieces of `text.split(' ')`, on lists of characters. -/
def splitOnSpace : List Char → List (List Char)
  | [] => [[]]
  | c :: cs =>
    if c = Char.ofNat 32 then [] :: splitOnSpace cs
    else
      match splitOnSpace cs with
      | [] => [[c]]
      | w :: ws => (c :: w) :: ws

/-- The value `authHeader && authHeader.split(' ')[1]`, `none` when it is
falsy (no header, no second piece, or an empty one). -/
def bearerToken (authHeader : Option String) : Option String :=
  match authHeader with
  | none => none
  | some h =>
    match (splitOnSpace h.data)[1]? with
    | none => none
    | some [] => none
    | some (c :: cs) => some (String.mk (c :: cs))

/-- Outcome of the middleware: an answer sent by the middleware itself, or
`next()` called with `req.user` set (the route handler runs). -/
inductive GateResult where
  | rejected (status : Nat) (error : String)
  | next (user : AuthUser)
deriving DecidableEq, Repr

/-- Middleware `authenticateToken`; `verify` stands for
`jwt.verify(token, JWT_SECRET, ...)`, `none` when it reports an error. -/
def authenticateToken (verify : String → Option AuthUser) (authHeader : Option String) :
    GateResult :=
  match bearerToken authHeader with
  | none => .rejected 401 "Access token required"
  | some token =>
    match verify token with
    | none => .rejected 403 "Invalid token"
    | some user => .next user

/-! ## Request sequences -/

/-- A request that writes the store. -/
inductive Request where
  | punch (user : AuthUser) (type : String) (today : Nat) (currentTime : TimeOfDay)
  | submit (user : AuthUser) (leave_type : String) (start_date end_date : Nat)
      (reason : String) (now : Nat)
  | resolve (user : AuthUser) (id : Nat) (status : String)
deriving DecidableEq, Repr

/-- The store after one request. -/
def step (zone : Zone) (s : Store) : Request → Store
  | .punch user type today currentTime => (punch zone s user type today currentTime).2
  | .submit user leave_type start_date end_date reason now =>
    (submitLeave s user leave_type start_date end_date reason now).2
  | .resolve user id status => (resolveLeave s user id status).2

/-- The store after a sequence of requests, starting from `s`. -/
def runFrom (zone : Zone) (s : Store) (reqs : List Request) : Store :=
  reqs.foldl (step zone) s

/-- The store reached from the empty store. -/
def run (zone : Zone) (reqs : List Request) : Store :=
  runFrom zone emptyStore reqs

/-! ## Rounding lemmas -/

theorem floorLog2Aux_le (fuel : Nat) : ∀ (n e : Nat), n < 2 ^ (e + 1) → floorLog2Aux fuel n ≤ e := by
  induction fuel with
  | zero => intro n e _; simp [floorLog2Aux]
  | succ fuel ih =>
    intro n e h
    unfold floorLog2Aux
    split_ifs with h2
    · exact Nat.zero_le _
    · cases e with
      | zero => simp at h; omega
      | succ e =>
        have h3 : n / 2 < 2 ^ (e + 1) := by
          rw [Nat.div_lt_iff_lt_mul (by norm_num)]
          calc n < 2 ^ (e + 1 + 1) := h
            _ = 2 ^ (e + 1) * 2 := by ring
        have := ih (n / 2) e h3
        omega

theorem roundNearestEven_bounds (a b : Nat) (hb : 0 < b) :
    2 * (roundNearestEven a b * b) ≤ 2 * a + b ∧ 2 * a ≤ 2 * (roundNearestEven a b * b) + b := by
  have h := Nat.div_add_mod a b
  have hr := Nat.mod_lt a hb
  have hc : a / b * b = b * (a / b) := Nat.mul_comm _ _
  unfold roundNearestEven
  split_ifs <;> (try simp only [Nat.add_mul, Nat.one_mul]) <;> omega

theorem fixed_bound (s m T : Nat) (hT : 1800 < T)
    (hm1 : 2 * (m * 3600000) ≤ 2 * (1000 * s * T) + 3600000)
    (hm2 : 2 * (1000 * s * T) ≤ 2 * (m * 3600000) + 3600000) :
    36 * ((200 * m + T) / (2 * T)) ≤ s + 18 ∧ s ≤ 36 * ((200 * m + T) / (2 * T)) + 18 := by
  have hpos : 0 < 2 * T := by omega
  have ha := Nat.div_mul_le_self (200 * m + T) (2 * T)
  have hb := Nat.lt_div_mul_add (a := 200 * m + T) hpos
  generalize (200 * m + T) / (2 * T) = n at *
  constructor
  · by_contra hc
    have hc2 : s + 19 ≤ 36 * n := by omega
    have := Nat.mul_le_mul_right T hc2
    nlinarith
  · by_contra hc
    have hc2 : 36 * n + 19 ≤ s := by omega
    have := Nat.mul_le_mul_right T hc2
    nlinarith

theorem toFixed2_divDouble_bounds (s : Nat) (h0 : 0 < s) (h1 : s < 86400) :
    36 * toFixed2 (divDouble (1000 * s) 3600000) ≤ s + 18 ∧
      s ≤ 36 * toFixed2 (divDouble (1000 * s) 3600000) + 18 := by
  have hp : 1000 * s ≠ 0 := by omega
  have hlog : floorLog2 (1000 * s) ≤ 26 := floorLog2Aux_le _ _ _ (by norm_num; omega)
  have hbe : binaryExponent (1000 * s) 3600000 ≤ 26 := by
    unfold binaryExponent
    split_ifs <;> omega
  obtain ⟨K, hK⟩ : ∃ K : Nat, 52 - binaryExponent (1000 * s) 3600000 = (K : Int) :=
    ⟨(52 - binaryExponent (1000 * s) 3600000).toNat, by omega⟩
  have hK26 : 26 ≤ K := by omega
  have hT : 1800 < 2 ^ K :=
    calc 1800 < 2 ^ 26 := by norm_num
      _ ≤ 2 ^ K := Nat.pow_le_pow_right (by norm_num) hK26
  have hr := roundNearestEven_bounds (1000 * s * 2 ^ K) 3600000 (by norm_num)
  have hf := fixed_bound s _ (2 ^ K) hT hr.1 hr.2
  have hpow : 2 ^ (K + 1) = 2 * 2 ^ K := by ring
  simpa [divDouble, toFixed2, hp, hK, hpow] using hf

/-- The model of the division agrees with the doubles of `8.5` (exact) and of
`0.015` (below the decimal, so that `toFixed(2)` prints `0.01`). -/
theorem divDouble_samples :
    divDouble 30600000 3600000 = ⟨4785074604081152, 49⟩ ∧
      divDouble 54000 3600000 = ⟨8646911284551352, 59⟩ ∧
      toFixed2 (divDouble 54000 3600000) = 1 := by
  decide

/-! ## Attendance: open records -/

/-- An open record of user `u` on date `d`: `punch_in` set, `punch_out` null. -/
def isOpenFor (u d : Nat) (r : AttendanceRecord) : Bool :=
  decide (r.user_id = u ∧ r.date = d ∧ r.punch_in ≠ none ∧ r.punch_out = none)

/-- Number of open records of user `u` on date `d`. -/
def openCount (s : Store) (u d : Nat) : Nat :=
  s.attendance.countP (isOpenFor u d)

/-- A punch-in request of user `u` on date `d`. -/
def isPunchIn (u d : Nat) : Request → Bool
  | .punch user type today _ => decide (user.id = u ∧ type = "in" ∧ today = d)
  | _ => false

/-- Two punch-ins of user 2 on day 100, at 09:00:00 and 09:01:00. -/
def twoPunchIns : List Request :=
  [.punch ⟨2, "employee"⟩ "in" 100 32400, .punch ⟨2, "employee"⟩ "in" 100 32460]

theorem closeRecord_isOpenFor (u d id : Nat) (t : TimeOfDay) (h : HoursText)
    (r : AttendanceRecord) (hr : isOpenFor u d (closeRecord id t h r) = true) :
    isOpenFor u d r = true := by
  unfold closeRecord at hr
  split_ifs at hr
  · simp [isOpenFor] at hr
  · exact hr

theorem openCount_step_le (zone : Zone) (s : Store) (req : Request) (u d : Nat) :
    openCount (step zone s req) u d ≤ openCount s u d + (if isPunchIn u d req then 1 else 0) := by
  cases req with
  | punch user type today currentTime =>
    by_cases hin : type = "in"
    · subst hin
      simp only [step, punch, openCount, if_true, List.countP_append, List.countP_singleton]
      simp only [isOpenFor, isPunchIn]
      by_cases hu : user.id = u <;> by_cases hd : today = d <;> simp [hu, hd]
    · simp only [step, punch, hin, if_false, openCount]
      cases hopen : openRecord s user.id today with
      | none => simp
      | some record =>
        simp only [List.countP_map]
        exact Nat.le_trans
          (List.countP_mono_left (fun r _ hr => closeRecord_isOpenFor u d _ _ _ r hr))
          (Nat.le_add_right _ _)
  | submit user leave_type start_date end_date reason now =>
    simp [step, submitLeave, openCount]
  | resolve user id status =>
    simp only [step, resolveLeave, openCount]
    split_ifs <;> simp

theorem openCount_runFrom_le (zone : Zone) (reqs : List Request) : ∀ (s : Store) (u d : Nat),
    openCount (runFrom zone s reqs) u d ≤ openCount s u d + reqs.countP (isPunchIn u d) := by
  induction reqs with
  | nil => intro s u d; simp [runFrom]
  | cons req reqs ih =>
    intro s u d
    have h1 := ih (step zone s req) u d
    have h2 := openCount_step_le zone s req u d
    have h3 : runFrom zone s (req :: reqs) = runFrom zone (step zone s req) reqs := rfl
    rw [h3, List.countP_cons]
    omega

/-- C1, as stated, fails: after two punch-ins of user 2 on day 100 the store
holds two open records for that user and date. -/
theorem open_records_not_unique :
    openCount (run utcZone twoPunchIns) 2 100 = 2 ∧ ¬ openCount (run utcZone twoPunchIns) 2 100 ≤ 1 := by
  decide

/-- C1, amended: in every store reached from the empty store, the number of
open records of user `u` on date `d` is at most the number of punch-in requests
of `u` on `d` in the sequence. -/
theorem open_records_le_punch_ins (zone : Zone) (reqs : List Request) (u d : Nat) :
    openCount (run zone reqs) u d ≤ reqs.countP (isPunchIn u d) := by
  have h := openCount_runFrom_le zone reqs emptyStore u d
  simpa [run, openCount, emptyStore] using h

/-! ## Attendance: punch-out -/

theorem punch_out_eq (zone : Zone) (s : Store) (user : AuthUser) (today : Nat) (t : TimeOfDay)
    (record : AttendanceRecord) (hopen : openRecord s user.id today = some record) :
    punch zone s user "out" today t =
      (.json (.punchedOut t (hoursText zone today record.punch_in t)),
        { s with
          attendance := s.attendance.map
            (closeRecord record.id t (hoursText zone today record.punch_in t)) }) := by
  have hne : ¬ ("out" = "in") := by decide
  simp only [punch, hne, if_false, hopen]

theorem elapsedMs_same_offset (zone : Zone) (today : Nat) (t1 t2 : TimeOfDay)
    (hzone : zone today t1 = zone today t2) :
    elapsedMs zone today t1 t2 = 1000 * ((t2.val : Int) - (t1.val : Int)) := by
  unfold elapsedMs epochMs
  rw [hzone]
  ring

theorem hoursText_later (zone : Zone) (today : Nat) (t1 t2 : TimeOfDay) (hlt : t1 < t2)
    (hzone : zone today t1 = zone today t2) :
    hoursText zone today (some t1) t2 =
      .num false (toFixed2 (divDouble (1000 * (t2.val - t1.val)) 3600000)) := by
  have h : t1.val < t2.val := hlt
  have he := elapsedMs_same_offset zone today t1 t2 hzone
  have hms : (elapsedMs zone today t1 t2).natAbs = 1000 * (t2.val - t1.val) := by
    rw [he]; omega
  have hneg : ¬ elapsedMs zone today t1 t2 < 0 := by
    rw [he]; omega
  simp [hoursText, hms, hneg]

theorem hoursText_earlier (zone : Zone) (today : Nat) (t1 t2 : TimeOfDay) (hlt : t2 < t1)
    (hzone : zone today t1 = zone today t2) :
    hoursText zone today (some t1) t2 =
      .num true (toFixed2 (divDouble (1000 * (t1.val - t2.val)) 3600000)) := by
  have h : t2.val < t1.val := hlt
  have he := elapsedMs_same_offset zone today t1 t2 hzone
  have hms : (elapsedMs zone today t1 t2).natAbs = 1000 * (t1.val - t2.val) := by
    rw [he]; omega
  have hneg : elapsedMs zone today t1 t2 < 0 := by
    rw [he]; omega
  simp [hoursText, hms, hneg]

theorem hundredths_near (a b n : Nat) (hab : a < b) (h1 : 36 * n ≤ (b - a) + 18)
    (h2 : b - a ≤ 36 * n + 18) :
    |(n : ℚ) / 100 - ((b : ℚ) - (a : ℚ)) / 3600| ≤ 1 / 200 := by
  have hba : ((b - a : Nat) : ℚ) = (b : ℚ) - (a : ℚ) := Nat.cast_sub (Nat.le_of_lt hab)
  have h1q : (36 : ℚ) * n ≤ ((b - a : Nat) : ℚ) + 18 := by exact_mod_cast h1
  have h2q : ((b - a : Nat) : ℚ) ≤ (36 : ℚ) * n + 18 := by exact_mod_cast h2
  rw [hba] at h1q h2q
  rw [abs_le]
  constructor <;> linarith

theorem closed_record_mem (zone : Zone) (s : Store) (user : AuthUser) (today : Nat)
    (t : TimeOfDay) (record : AttendanceRecord)
    (hopen : openRecord s user.id today = some record) :
    ({ record with
        punch_out := some t
        total_hours := some (hoursText zone today record.punch_in t) } : AttendanceRecord) ∈
      (punch zone s user "out" today t).2.attendance := by
  rw [punch_out_eq zone s user today t record hopen]
  exact List.mem_map.2 ⟨record, List.mem_of_find?_eq_some hopen, by simp [closeRecord]⟩

/-- Day 100: user 3 punched in at 09:01:40, then user 2 at 09:00:00 and again
at 10:00:00; all three records are open. -/
def queueStore : Store :=
  run utcZone [.punch ⟨3, "employee"⟩ "in" 100 32500, .punch ⟨2, "employee"⟩ "in" 100 32400,
    .punch ⟨2, "employee"⟩ "in" 100 36000]

/-- Day 100: user 3 punched in at 09:01:40, then user 2 at 17:00:00. -/
def lateStore : Store :=
  run utcZone [.punch ⟨3, "employee"⟩ "in" 100 32500, .punch ⟨2, "employee"⟩ "in" 100 61200]

/-- Day 100 with one open record of user 2, punched in at 09:00:00. -/
def morningStore : Store :=
  run utcZone [.punch ⟨2, "employee"⟩ "in" 100 32400]

/-- Two open records of user 2 and one of user 3 on day 100. -/
def busyRequests : List Request :=
  [.punch ⟨2, "employee"⟩ "in" 100 32400, .punch ⟨3, "employee"⟩ "in" 100 32500,
    .punch ⟨2, "employee"⟩ "in" 100 36000]

/-- Day 100 in `springZone` with one open record of user 2, punched in at
01:30:00, before the clock is put forward. -/
def springStore : Store :=
  run springZone [.punch ⟨2, "employee"⟩ "in" 100 5400]

/-- C2, as stated, fails in two ways. With two open records of user 2 (09:00:00
and 10:00:00), a punch-out at 17:30:00 answers 8.50 and leaves the 10:00:00
record open, although for that record `(t2 - t1) / 3600` is 7.50. And on a day
whose clock is put forward at 02:00:00, punch-in 01:30:00 and punch-out
03:30:00 give 1.00, not 2.00. -/
theorem punch_out_hours_not_every_record :
    ((⟨3, 2, 100, some 36000, none, none, "present"⟩ : AttendanceRecord) ∈
        (run utcZone busyRequests).attendance ∧
      ((36000 : TimeOfDay) < 63000) ∧
      (punch utcZone (run utcZone busyRequests) ⟨2, "employee"⟩ "out" 100 63000).1 =
        .json (.punchedOut 63000 (.num false 850)) ∧
      (⟨3, 2, 100, some 36000, none, none, "present"⟩ : AttendanceRecord) ∈
        (punch utcZone (run utcZone busyRequests) ⟨2, "employee"⟩ "out" 100 63000).2.attendance ∧
      ¬ |(850 : ℚ) / 100 - ((63000 : ℚ) - 36000) / 3600| ≤ 1 / 200) ∧
    (openRecord springStore 2 100 = some ⟨1, 2, 100, some 5400, none, none, "present"⟩ ∧
      ((5400 : TimeOfDay) < 12600) ∧
      punch springZone springStore ⟨2, "employee"⟩ "out" 100 12600 =
        (.json (.punchedOut 12600 (.num false 100)),
          { springStore with
            attendance :=
              [⟨1, 2, 100, some 5400, some 12600, some (.num false 100), "present"⟩] }) ∧
      ¬ |(100 : ℚ) / 100 - ((12600 : ℚ) - 5400) / 3600| ≤ 1 / 200) := by
  refine ⟨⟨by decide, by decide, by decide, by decide, ?_⟩, by decide, by decide, by decide, ?_⟩
  · rw [abs_le]; norm_num
  · rw [abs_le]; norm_num

/-- C2, amended: when the first record of the table that belongs to the user,
has today's date and `punch_out` null (the open record the lookup finds) has
punch-in time `t1`, and the local clock is not changed between `t1` and a later
time `t2` of that date, a punch-out at `t2` answers a non-negative
`total_hours` text whose value `n / 100` is `(t2 - t1) / 3600` rounded to two
decimals (within half a hundredth of it), and writes `t2` and that text into
`punch_out` and `total_hours` of the rows with the id of that record, among
them the record itself. -/
theorem punch_out_total_hours (zone : Zone) (s : Store) (user : AuthUser) (today : Nat)
    (t1 t2 : TimeOfDay) (pre post : List AttendanceRecord) (record : AttendanceRecord)
    (hsplit : s.attendance = pre ++ record :: post)
    (hpre : ∀ r ∈ pre, ¬ (r.user_id = user.id ∧ r.date = today ∧ r.punch_out = none))
    (hrec : record.user_id = user.id ∧ record.date = today ∧ record.punch_out = none)
    (hin : record.punch_in = some t1) (hlt : t1 < t2)
    (hzone : zone today t1 = zone today t2) :
    ∃ n : Nat,
      punch zone s user "out" today t2 =
        (.json (.punchedOut t2 (.num false n)),
          { s with
            attendance := s.attendance.map (fun r =>
              if r.id = record.id
              then { r with punch_out := some t2, total_hours := some (.num false n) }
              else r) }) ∧
      ({ record with punch_out := some t2, total_hours := some (.num false n) } :
          AttendanceRecord) ∈ (punch zone s user "out" today t2).2.attendance ∧
      |(n : ℚ) / 100 - ((t2.val : ℚ) - (t1.val : ℚ)) / 3600| ≤ 1 / 200 := by
  have h : t1.val < t2.val := hlt
  have hnone : pre.find?
      (fun r => decide (r.user_id = user.id ∧ r.date = today ∧ r.punch_out = none)) = none := by
    rw [List.find?_eq_none]
    intro r hr
    simpa using hpre r hr
  have hopen : openRecord s user.id today = some record := by
    unfold openRecord
    rw [hsplit, List.find?_append, hnone]
    simp [List.find?_cons, hrec]
  have hb := toFixed2_divDouble_bounds (t2.val - t1.val) (by omega) (by omega)
  have hh : hoursText zone today record.punch_in t2 =
      .num false (toFixed2 (divDouble (1000 * (t2.val - t1.val)) 3600000)) := by
    rw [hin]
    exact hoursText_later zone today t1 t2 hlt hzone
  have hmem := closed_record_mem zone s user today t2 record hopen
  rw [hh] at hmem
  refine ⟨toFixed2 (divDouble (1000 * (t2.val - t1.val)) 3600000), ?_, hmem, ?_⟩
  · rw [punch_out_eq zone s user today t2 record hopen, hh]
    rfl
  · exact hundredths_near _ _ _ h hb.1 hb.2

/-- C2 amended, at a concrete day: the first open record of user 2 has punch-in
09:00:00; a punch-out at 17:30:00 gives 8.50, written into that record, and the
records of user 3 and of the 10:00:00 punch-in stay as they are. -/
theorem punch_out_total_hours_witness :
    queueStore.attendance =
        [⟨1, 3, 100, some 32500, none, none, "present"⟩] ++
          ⟨2, 2, 100, some 32400, none, none, "present"⟩ ::
          [⟨3, 2, 100, some 36000, none, none, "present"⟩] ∧
      ((32400 : TimeOfDay) < 63000) ∧ utcZone 100 32400 = utcZone 100 63000 ∧
      punch utcZone queueStore ⟨2, "employee"⟩ "out" 100 63000 =
        (.json (.punchedOut 63000 (.num false 850)),
          { queueStore with
            attendance :=
              [⟨1, 3, 100, some 32500, none, none, "present"⟩,
                ⟨2, 2, 100, some 32400, some 63000, some (.num false 850), "present"⟩,
                ⟨3, 2, 100, some 36000, none, none, "present"⟩] }) := by
  refine ⟨by decide, by decide, rfl, ?_⟩
  obtain ⟨n, hn, _, hb⟩ := punch_out_total_hours utcZone queueStore ⟨2, "employee"⟩ 100
    32400 63000 [⟨1, 3, 100, some 32500, none, none, "present"⟩]
    [⟨3, 2, 100, some 36000, none, none, "present"⟩]
    ⟨2, 2, 100, some 32400, none, none, "present"⟩ (by decide) (by decide) (by decide) rfl
    (by decide) rfl
  have e1 : (63000 : TimeOfDay).val = 63000 := rfl
  have e2 : (32400 : TimeOfDay).val = 32400 := rfl
  have hv : (((63000 : TimeOfDay).val : ℚ) - ((32400 : TimeOfDay).val : ℚ)) / 3600 = 17 / 2 := by
    rw [e1, e2]; norm_num
  rw [hv, abs_le] at hb
  have h1 : (n : ℚ) ≤ 850 + 1 / 2 := by linarith [hb.2]
  have h2 : (850 : ℚ) - 1 / 2 ≤ n := by linarith [hb.1]
  have h3 : (n : ℚ) < 851 := by linarith
  have h4 : (849 : ℚ) < n := by linarith
  have h5 : n < 851 := by exact_mod_cast h3
  have h6 : 849 < n := by exact_mod_cast h4
  have h7 : n = 850 := by omega
  subst h7
  rw [hn]
  rfl

/-- Day 100 where user 2 has punched in and out and user 3 is still punched in. -/
def closedDayStore : Store :=
  run utcZone [.punch ⟨2, "employee"⟩ "in" 100 32400, .punch ⟨2, "employee"⟩ "out" 100 63000,
    .punch ⟨3, "employee"⟩ "in" 100 32500]

/-- C3, as stated, fails: user 2 has an open record for day 100, yet a second
punch-in is answered with success and adds a record. -/
theorem punch_in_no_conflict :
    openCount morningStore 2 100 = 1 ∧
      (punch utcZone morningStore ⟨2, "employee"⟩ "in" 100 32460).1 = .json (.punchedIn 32460) ∧
      (punch utcZone morningStore ⟨2, "employee"⟩ "in" 100 32460).2.attendance.length =
        morningStore.attendance.length + 1 := by
  decide

/-- C3, amended: a punch-in always succeeds, also when the user already has an
open record for today; it answers the punch-in time and appends one record with
that punch-in time, `punch_out` and `total_hours` null and status `present`. -/
theorem punch_in_appends (zone : Zone) (s : Store) (user : AuthUser) (today : Nat) (t : TimeOfDay) :
    (punch zone s user "in" today t).1 = .json (.punchedIn t) ∧
      ∃ id : Nat, (punch zone s user "in" today t).2.attendance =
        s.attendance ++ [⟨id, user.id, today, some t, none, none, "present"⟩] ∧
        (punch zone s user "in" today t).2.leave_requests = s.leave_requests := by
  simp [punch]

/-- C4: when the user has no record for today with `punch_out` null, a
punch-out is answered 400 `No punch-in record found` and the store is
unchanged. -/
theorem punch_out_not_found (zone : Zone) (s : Store) (user : AuthUser) (today : Nat) (t : TimeOfDay)
    (h : ∀ r ∈ s.attendance, ¬ (r.user_id = user.id ∧ r.date = today ∧ r.punch_out = none)) :
    punch zone s user "out" today t = (.fail 400 "No punch-in record found", s) := by
  have hnone : openRecord s user.id today = none := by
    unfold openRecord
    rw [List.find?_eq_none]
    intro r hr
    simpa using h r hr
  have hne : ¬ ("out" = "in") := by decide
  simp only [punch, hne, if_false, hnone]

/-- C4 at a concrete store: user 2 has only a closed record for day 100. -/
theorem punch_out_not_found_witness :
    (∀ r ∈ closedDayStore.attendance, ¬ (r.user_id = 2 ∧ r.date = 100 ∧ r.punch_out = none)) ∧
      punch utcZone closedDayStore ⟨2, "employee"⟩ "out" 100 64000 =
        (.fail 400 "No punch-in record found", closedDayStore) :=
  ⟨by decide, punch_out_not_found utcZone closedDayStore ⟨2, "employee"⟩ 100 64000 (by decide)⟩

/-- Day 100 with one open record of user 2, punched in at 17:00:00. -/
def eveningStore : Store :=
  run utcZone [.punch ⟨2, "employee"⟩ "in" 100 61200]

/-- C5, as stated, fails: with punch-in 17:00:00, a punch-out at 09:00:00 is
answered with success and writes `punch_out` and `total_hours` -8.00. -/
theorem punch_out_negative_succeeds :
    openRecord eveningStore 2 100 = some ⟨1, 2, 100, some 61200, none, none, "present"⟩ ∧
      punch utcZone eveningStore ⟨2, "employee"⟩ "out" 100 32400 =
        (.json (.punchedOut 32400 (.num true 800)),
          { eveningStore with
            attendance := [⟨1, 2, 100, some 61200, some 32400, some (.num true 800), "present"⟩] }) := by
  decide

/-- C5, amended: when the first record of the table that belongs to the user,
has today's date and `punch_out` null (the open record the lookup finds) has a
punch-in time `t1` later than the punch-out time `t2`, on a day whose local
clock is not changed between the two times, the punch-out succeeds: it answers
a `total_hours` text with a minus sign whose magnitude `n / 100` is
`(t1 - t2) / 3600` rounded to two decimals, and writes `t2` and that text into
`punch_out` and `total_hours` of the rows with the id of that record, among
them the record itself. -/
theorem punch_out_negative_hours (zone : Zone) (s : Store) (user : AuthUser) (today : Nat)
    (t1 t2 : TimeOfDay) (pre post : List AttendanceRecord) (record : AttendanceRecord)
    (hsplit : s.attendance = pre ++ record :: post)
    (hpre : ∀ r ∈ pre, ¬ (r.user_id = user.id ∧ r.date = today ∧ r.punch_out = none))
    (hrec : record.user_id = user.id ∧ record.date = today ∧ record.punch_out = none)
    (hin : record.punch_in = some t1) (hlt : t2 < t1)
    (hzone : zone today t1 = zone today t2) :
    ∃ n : Nat,
      punch zone s user "out" today t2 =
        (.json (.punchedOut t2 (.num true n)),
          { s with
            attendance := s.attendance.map (fun r =>
              if r.id = record.id
              then { r with punch_out := some t2, total_hours := some (.num true n) }
              else r) }) ∧
      ({ record with punch_out := some t2, total_hours := some (.num true n) } :
          AttendanceRecord) ∈ (punch zone s user "out" today t2).2.attendance ∧
      |(n : ℚ) / 100 - ((t1.val : ℚ) - (t2.val : ℚ)) / 3600| ≤ 1 / 200 := by
  have h : t2.val < t1.val := hlt
  have hnone : pre.find?
      (fun r => decide (r.user_id = user.id ∧ r.date = today ∧ r.punch_out = none)) = none := by
    rw [List.find?_eq_none]
    intro r hr
    simpa using hpre r hr
  have hopen : openRecord s user.id today = some record := by
    unfold openRecord
    rw [hsplit, List.find?_append, hnone]
    simp [List.find?_cons, hrec]
  have hb := toFixed2_divDouble_bounds (t1.val - t2.val) (by omega) (by omega)
  have hh : hoursText zone today record.punch_in t2 =
      .num true (toFixed2 (divDouble (1000 * (t1.val - t2.val)) 3600000)) := by
    rw [hin]
    exact hoursText_earlier zone today t1 t2 hlt hzone
  have hmem := closed_record_mem zone s user today t2 record hopen
  rw [hh] at hmem
  refine ⟨toFixed2 (divDouble (1000 * (t1.val - t2.val)) 3600000), ?_, hmem, ?_⟩
  · rw [punch_out_eq zone s user today t2 record hopen, hh]
    rfl
  · exact hundredths_near _ _ _ h hb.1 hb.2

/-- C5 amended, at a concrete store: the open record of user 2 has punch-in
17:00:00; a punch-out at 09:00:00 writes `punch_out` and a negative
`total_hours` into that record. -/
theorem punch_out_negative_hours_witness :
    lateStore.attendance =
        [⟨1, 3, 100, some 32500, none, none, "present"⟩] ++
          ⟨2, 2, 100, some 61200, none, none, "present"⟩ :: [] ∧
      ((32400 : TimeOfDay) < 61200) ∧ utcZone 100 61200 = utcZone 100 32400 ∧
      ∃ n : Nat,
        punch utcZone lateStore ⟨2, "employee"⟩ "out" 100 32400 =
          (.json (.punchedOut 32400 (.num true n)),
            { lateStore with
              attendance := lateStore.attendance.map (fun r =>
                if r.id = 2
                then { r with punch_out := some 32400, total_hours := some (.num true n) }
                else r) }) ∧
        (⟨2, 2, 100, some 61200, some 32400, some (.num true n), "present"⟩ :
            AttendanceRecord) ∈
          (punch utcZone lateStore ⟨2, "employee"⟩ "out" 100 32400).2.attendance ∧
        |(n : ℚ) / 100 - (((61200 : TimeOfDay).val : ℚ) - ((32400 : TimeOfDay).val : ℚ)) / 3600|
          ≤ 1 / 200 :=
  ⟨by decide, by decide, rfl,
    punch_out_negative_hours utcZone lateStore ⟨2, "employee"⟩ 100 61200 32400
      [⟨1, 3, 100, some 32500, none, none, "present"⟩] []
      ⟨2, 2, 100, some 61200, none, none, "present"⟩ (by decide) (by decide) (by decide) rfl
      (by decide) rfl⟩

/-! ## Leave requests -/

/-- One request of user 2, submitted at time 5000 and approved by admin 1. -/
def approvedStore : Store :=
  run utcZone [.submit ⟨2, "employee"⟩ "sick" 105 106 "flu" 5000, .resolve ⟨1, "admin"⟩ 1 "approved"]

theorem mem_map_setStatus (l : List LeaveRequest) (id : Nat) (status : String) (uid : Nat)
    (r : LeaveRequest) (hr : r ∈ l.map (setStatus id status uid)) :
    (r ∈ l) ∨ (r.status = status) := by
  rw [List.mem_map] at hr
  obtain ⟨r1, hr1, rfl⟩ := hr
  unfold setStatus
  split_ifs
  · exact Or.inr rfl
  · exact Or.inl hr1

theorem status_runFrom (zone : Zone) (reqs : List Request) : ∀ (s : Store) (r : LeaveRequest),
    r ∈ (runFrom zone s reqs).leave_requests →
      r.status = "pending" ∨ (∃ r0 ∈ s.leave_requests, r0.status = r.status) ∨
        ∃ admin id, Request.resolve admin id r.status ∈ reqs ∧ admin.role = "admin" := by
  induction reqs with
  | nil => intro s r hr; exact Or.inr (Or.inl ⟨r, hr, rfl⟩)
  | cons req reqs ih =>
    intro s r hr
    have h3 : runFrom zone s (req :: reqs) = runFrom zone (step zone s req) reqs := rfl
    rw [h3] at hr
    rcases ih (step zone s req) r hr with h | ⟨r0, hr0, hst⟩ | ⟨admin, id, hmem, hadmin⟩
    · exact Or.inl h
    · cases req with
      | punch user type today currentTime =>
        have hsame : (step zone s (.punch user type today currentTime)).leave_requests =
            s.leave_requests := by
          simp only [step, punch]
          split_ifs
          · rfl
          · cases openRecord s user.id today <;> rfl
        rw [hsame] at hr0
        exact Or.inr (Or.inl ⟨r0, hr0, hst⟩)
      | submit user leave_type start_date end_date reason now =>
        simp only [step, submitLeave, List.mem_append, List.mem_singleton] at hr0
        rcases hr0 with h0 | h0
        · exact Or.inr (Or.inl ⟨r0, h0, hst⟩)
        · left
          rw [← hst, h0]
      | resolve user id status =>
        by_cases hadmin : user.role = "admin"
        · simp only [step, resolveLeave, hadmin, ne_eq, not_true_eq_false, if_false] at hr0
          rcases mem_map_setStatus _ _ _ _ _ hr0 with h0 | h0
          · exact Or.inr (Or.inl ⟨r0, h0, hst⟩)
          · refine Or.inr (Or.inr ⟨user, id, ?_, hadmin⟩)
            rw [← hst, h0]
            exact List.mem_cons_self _ _
        · simp only [step, resolveLeave, ne_eq, hadmin, not_false_eq_true, if_true] at hr0
          exact Or.inr (Or.inl ⟨r0, hr0, hst⟩)
    · exact Or.inr (Or.inr ⟨admin, id, List.mem_cons_of_mem _ hmem, hadmin⟩)

/-- C6, as stated, fails: the request approved by admin 1 is resolved again by
admin 7 with status `rejected`; the call succeeds and overwrites `status` and
`approved_by`. -/
theorem resolve_again_succeeds :
    approvedStore.leave_requests =
        [⟨1, 2, "sick", 105, 106, "flu", "approved", 5000, some 1⟩] ∧
      resolveLeave approvedStore ⟨7, "admin"⟩ 1 "rejected" =
        (.json .leaveUpdated,
          { approvedStore with
            leave_requests := [⟨1, 2, "sick", 105, 106, "flu", "rejected", 5000, some 7⟩] }) := by
  decide

/-- C6, amended: a resolve call by an admin succeeds whatever the current
status of the request, also when it is already approved or rejected, and
overwrites the status of the request with that id by the new status and its
`approved_by` by the caller's id; rows with another id are unchanged. -/
theorem resolve_overwrites (s : Store) (user : AuthUser) (id : Nat) (status : String)
    (hadmin : user.role = "admin") :
    (resolveLeave s user id status).1 = .json .leaveUpdated ∧
      (resolveLeave s user id status).2.leave_requests =
        s.leave_requests.map (setStatus id status user.id) ∧
      ∀ r : LeaveRequest,
        (r.id = id → setStatus id status user.id r =
          { r with status := status, approved_by := some user.id }) ∧
        (r.id ≠ id → setStatus id status user.id r = r) := by
  refine ⟨by simp [resolveLeave, hadmin], by simp [resolveLeave, hadmin], ?_⟩
  intro r
  constructor
  · intro h; simp [setStatus, h]
  · intro h; simp [setStatus, h]

/-- C6 amended, at the approved request resolved again by admin 7. -/
theorem resolve_overwrites_witness :
    (⟨7, "admin"⟩ : AuthUser).role = "admin" ∧
      (resolveLeave approvedStore ⟨7, "admin"⟩ 1 "rejected").1 = .json .leaveUpdated ∧
      (resolveLeave approvedStore ⟨7, "admin"⟩ 1 "rejected").2.leave_requests =
        approvedStore.leave_requests.map (setStatus 1 "rejected" 7) :=
  ⟨rfl, (resolve_overwrites approvedStore ⟨7, "admin"⟩ 1 "rejected" rfl).1,
    (resolve_overwrites approvedStore ⟨7, "admin"⟩ 1 "rejected" rfl).2.1⟩

/-- One pending request of user 2. -/
def pendingStore : Store :=
  run utcZone [.submit ⟨2, "employee"⟩ "sick" 105 106 "flu" 5000]

/-- C7: a resolve call by a caller whose role is not `admin` is answered 403
`Admin access required` and leaves the store, hence every leave request's
status and `approved_by`, unchanged. -/
theorem resolve_forbidden (s : Store) (user : AuthUser) (id : Nat) (status : String)
    (hrole : user.role ≠ "admin") :
    resolveLeave s user id status = (.fail 403 "Admin access required", s) := by
  simp [resolveLeave, hrole]

/-- C7 at a concrete call: employee 2 tries to approve the own pending request. -/
theorem resolve_forbidden_witness :
    (⟨2, "employee"⟩ : AuthUser).role ≠ "admin" ∧
      resolveLeave pendingStore ⟨2, "employee"⟩ 1 "approved" =
        (.fail 403 "Admin access required", pendingStore) :=
  ⟨by decide, resolve_forbidden pendingStore ⟨2, "employee"⟩ 1 "approved" (by decide)⟩

/-- C8, as stated, fails: a submit with `end_date` 105 before `start_date` 110
is answered with success and stores the request. -/
theorem submit_end_before_start_succeeds :
    (105 : Nat) < 110 ∧
      submitLeave emptyStore ⟨2, "employee"⟩ "sick" 110 105 "flu" 5000 =
        (.json (.leaveSubmitted 1),
          ⟨[], 0, [⟨1, 2, "sick", 110, 105, "flu", "pending", 5000, none⟩], 1⟩) := by
  decide

/-- C8, amended: a submit always succeeds, whatever the order of `start_date`
and `end_date`; it answers the new id and appends one request of the caller
with the given fields, status `pending` and `approved_by` null. -/
theorem submit_appends_pending (s : Store) (user : AuthUser) (leave_type : String)
    (start_date end_date : Nat) (reason : String) (now : Nat) :
    ∃ id : Nat,
      (submitLeave s user leave_type start_date end_date reason now).1 =
        .json (.leaveSubmitted id) ∧
      (submitLeave s user leave_type start_date end_date reason now).2.leave_requests =
        s.leave_requests ++
          [⟨id, user.id, leave_type, start_date, end_date, reason, "pending", now, none⟩] ∧
      (submitLeave s user leave_type start_date end_date reason now).2.attendance =
        s.attendance := by
  refine ⟨nextId (s.leave_requests.map (fun r : LeaveRequest => r.id)) s.leaveSeq, ?_, ?_, ?_⟩ <;>
    rfl

/-- A submit followed by a resolve of admin 1 with status `cancelled`. -/
def cancelRequests : List Request :=
  [.submit ⟨2, "employee"⟩ "sick" 105 106 "flu" 5000, .resolve ⟨1, "admin"⟩ 1 "cancelled"]

/-- C9, as stated, fails: resolve stores any status it is sent; after a resolve
with status `cancelled` the request's status is none of `pending`, `approved`,
`rejected`. -/
theorem status_not_restricted :
    (run utcZone cancelRequests).leave_requests =
        [⟨1, 2, "sick", 105, 106, "flu", "cancelled", 5000, some 1⟩] ∧
      ∃ r ∈ (run utcZone cancelRequests).leave_requests,
        r.status ≠ "pending" ∧ r.status ≠ "approved" ∧ r.status ≠ "rejected" := by
  decide

/-- C9, amended: in every store reached from the empty store, every leave
request's status is `pending` (as submit creates it) or the status sent by some
resolve request of an admin in the sequence. -/
theorem status_pending_or_resolved (zone : Zone) (reqs : List Request) (r : LeaveRequest)
    (hr : r ∈ (run zone reqs).leave_requests) :
    r.status = "pending" ∨
      ∃ admin id, Request.resolve admin id r.status ∈ reqs ∧ admin.role = "admin" := by
  rcases status_runFrom zone reqs emptyStore r hr with h | ⟨r0, hr0, _⟩ | h
  · exact Or.inl h
  · simp [emptyStore] at hr0
  · exact Or.inr h

/-- C9 amended, at the request resolved with status `cancelled`. -/
theorem status_pending_or_resolved_witness :
    (⟨1, 2, "sick", 105, 106, "flu", "cancelled", 5000, some 1⟩ : LeaveRequest) ∈
        (run utcZone cancelRequests).leave_requests ∧
      ("cancelled" = "pending" ∨
        ∃ admin id, Request.resolve admin id "cancelled" ∈ cancelRequests ∧
          admin.role = "admin") :=
  ⟨by decide,
    status_pending_or_resolved utcZone cancelRequests
      ⟨1, 2, "sick", 105, 106, "flu", "cancelled", 5000, some 1⟩ (by decide)⟩

/-! ## Attendance listing -/

/-- C10, as stated, fails: employee 2 asks for the records of user 3; the
answer is not 403 but a successful listing (of the own records). -/
theorem list_other_user_not_forbidden :
    (⟨2, "employee"⟩ : AuthUser).role ≠ "admin" ∧ (3 : Nat) ≠ 2 ∧
      listAttendance closedDayStore ⟨2, "employee"⟩ (some 3) =
        .json (.attendanceRows
          [⟨1, 2, 100, some 32400, some 63000, some (.num false 850), "present"⟩]) := by
  decide

/-- C10, amended: the listing always succeeds. For a non-admin requester the
target user id is ignored and the answer lists the requester's own records;
for an admin requester the answer lists the records of the target user (of the
admin when no target is given). -/
theorem list_attendance_scoped (s : Store) (user : AuthUser) (queryUserId : Option Nat) :
    (user.role ≠ "admin" →
        listAttendance s user queryUserId = .json (.attendanceRows (attendanceOf s user.id))) ∧
      (user.role = "admin" →
        listAttendance s user queryUserId =
          .json (.attendanceRows (attendanceOf s (queryUserId.getD user.id)))) := by
  constructor
  · intro h; simp [listAttendance, h]
  · intro h; simp [listAttendance, h]

/-- C10 amended, at employee 2 and at admin 1, both asking for user 3. -/
theorem list_attendance_scoped_witness :
    listAttendance closedDayStore ⟨2, "employee"⟩ (some 3) =
        .json (.attendanceRows (attendanceOf closedDayStore 2)) ∧
      listAttendance closedDayStore ⟨1, "admin"⟩ (some 3) =
        .json (.attendanceRows (attendanceOf closedDayStore 3)) :=
  ⟨(list_attendance_scoped closedDayStore ⟨2, "employee"⟩ (some 3)).1 (by decide),
    (list_attendance_scoped closedDayStore ⟨1, "admin"⟩ (some 3)).2 rfl⟩

theorem attendanceOf_mem (s : Store) (userId : Nat) (r : AttendanceRecord)
    (hr : r ∈ attendanceOf s userId) : r ∈ s.attendance ∧ r.user_id = userId := by
  unfold attendanceOf at hr
  have h1 := List.mem_of_mem_take hr
  have h2 := (List.perm_insertionSort _ _).mem_iff.1 h1
  simpa using h2

theorem attendanceOf_split (s : Store) (userId : Nat) :
    ∃ rest : List AttendanceRecord,
      (attendanceOf s userId ++ rest).Perm
        (s.attendance.filter (fun r => decide (r.user_id = userId))) ∧
      (attendanceOf s userId).Sorted (fun a b => b.date ≤ a.date) ∧
      (∀ r ∈ rest, ∀ kept ∈ attendanceOf s userId, r.date ≤ kept.date) ∧
      (rest ≠ [] → (attendanceOf s userId).length = 30) := by
  haveI : IsTotal AttendanceRecord (fun a b => b.date ≤ a.date) :=
    ⟨fun a b => Nat.le_total b.date a.date⟩
  haveI : IsTrans AttendanceRecord (fun a b => b.date ≤ a.date) :=
    ⟨fun _ _ _ hab hbc => Nat.le_trans hbc hab⟩
  have hsorted := List.sorted_insertionSort (fun a b : AttendanceRecord => b.date ≤ a.date)
    (s.attendance.filter (fun r => decide (r.user_id = userId)))
  have hperm := List.perm_insertionSort (fun a b : AttendanceRecord => b.date ≤ a.date)
    (s.attendance.filter (fun r => decide (r.user_id = userId)))
  refine ⟨((s.attendance.filter (fun r => decide (r.user_id = userId))).insertionSort
    (fun a b => b.date ≤ a.date)).drop 30, ?_, ?_, ?_, ?_⟩
  · unfold attendanceOf
    rw [List.take_append_drop]
    exact hperm
  · exact List.Pairwise.sublist (List.take_sublist 30 _) hsorted
  · intro r hr kept hkept
    unfold attendanceOf at hkept
    have hsplit := hsorted
    rw [← List.take_append_drop 30 ((s.attendance.filter
      (fun r => decide (r.user_id = userId))).insertionSort (fun a b => b.date ≤ a.date))] at hsplit
    exact (List.pairwise_append.1 hsplit).2.2 kept hkept r hr
  · intro hne
    unfold attendanceOf
    rw [List.length_take]
    have hlen : 30 < ((s.attendance.filter (fun r => decide (r.user_id = userId))).insertionSort
        (fun a b => b.date ≤ a.date)).length := by
      by_contra hle
      exact hne (List.drop_eq_nil_of_le (Nat.le_of_not_lt hle))
    omega

/-! ## Attendance listing: scope and order -/

/-- C11: for a non-admin requester, whatever the `user_id` query parameter,
every listed attendance record has the requester's `user_id`, and the answer is
the one given when `user_id` is omitted, hence the same for any two values of
the parameter. -/
theorem list_attendance_own (s : Store) (user : AuthUser) (queryUserId : Option Nat)
    (hrole : user.role ≠ "admin") :
    ∃ rows : List AttendanceRecord,
      listAttendance s user queryUserId = .json (.attendanceRows rows) ∧
      (∀ r ∈ rows, r.user_id = user.id) ∧
      listAttendance s user queryUserId = listAttendance s user none ∧
      ∀ other : Option Nat, listAttendance s user queryUserId = listAttendance s user other := by
  refine ⟨attendanceOf s user.id, by simp [listAttendance, hrole], ?_,
    by simp [listAttendance, hrole], fun other => by simp [listAttendance, hrole]⟩
  intro r hr
  exact (attendanceOf_mem s user.id r hr).2

/-- C11 at employee 2 asking for the records of user 3. -/
theorem list_attendance_own_witness :
    (⟨2, "employee"⟩ : AuthUser).role ≠ "admin" ∧
      ∃ rows : List AttendanceRecord,
        listAttendance closedDayStore ⟨2, "employee"⟩ (some 3) = .json (.attendanceRows rows) ∧
        (∀ r ∈ rows, r.user_id = 2) ∧
        listAttendance closedDayStore ⟨2, "employee"⟩ (some 3) =
          listAttendance closedDayStore ⟨2, "employee"⟩ none ∧
        ∀ other : Option Nat,
          listAttendance closedDayStore ⟨2, "employee"⟩ (some 3) =
            listAttendance closedDayStore ⟨2, "employee"⟩ other :=
  ⟨by decide, list_attendance_own closedDayStore ⟨2, "employee"⟩ (some 3) (by decide)⟩

/-- C13: the attendance listing answers at most 30 records, all stored records
of the target user (the requester, or for an admin the `user_id` asked for),
ordered by date descending; the records of the target user left out (`rest`)
all have a date no later than every listed record, in particular every stored
record of the target user that is not listed. -/
theorem list_attendance_most_recent (s : Store) (user : AuthUser) (queryUserId : Option Nat) :
    ∃ (target : Nat) (rows rest : List AttendanceRecord),
      target = (if user.role = "admin" then queryUserId.getD user.id else user.id) ∧
      listAttendance s user queryUserId = .json (.attendanceRows rows) ∧
      rows.length ≤ 30 ∧
      (∀ r ∈ rows, r ∈ s.attendance ∧ r.user_id = target) ∧
      rows.Sorted (fun a b => b.date ≤ a.date) ∧
      (rows ++ rest).Perm (s.attendance.filter (fun r => decide (r.user_id = target))) ∧
      (∀ r ∈ rest, ∀ kept ∈ rows, r.date ≤ kept.date) ∧
      (rest ≠ [] → rows.length = 30) ∧
      ∀ r ∈ s.attendance, r.user_id = target → r ∉ rows → ∀ kept ∈ rows, r.date ≤ kept.date := by
  obtain ⟨rest, hperm, hsorted, hrest, hfull⟩ := attendanceOf_split s
    (if user.role = "admin" then queryUserId.getD user.id else user.id)
  refine ⟨_, attendanceOf s (if user.role = "admin" then queryUserId.getD user.id else user.id),
    rest, rfl, rfl, ?_, ?_, hsorted, hperm, hrest, ?_, ?_⟩
  · simp [attendanceOf, List.length_take]
  · intro r hr
    exact attendanceOf_mem s _ r hr
  · exact hfull
  · intro r hr huser hnot kept hkept
    have hmem : r ∈ attendanceOf s (if user.role = "admin" then queryUserId.getD user.id
        else user.id) ++ rest := by
      rw [hperm.mem_iff]
      simp [hr, huser]
    rcases List.mem_append.1 hmem with h | h
    · exact absurd h hnot
    · exact hrest r h kept hkept

/-- C13 at the listing of user 3 asked for by admin 1. -/
theorem list_attendance_most_recent_witness :
    ∃ (target : Nat) (rows rest : List AttendanceRecord),
      target = 3 ∧
      listAttendance closedDayStore ⟨1, "admin"⟩ (some 3) = .json (.attendanceRows rows) ∧
      rows.length ≤ 30 ∧
      (∀ r ∈ rows, r ∈ closedDayStore.attendance ∧ r.user_id = target) ∧
      rows.Sorted (fun a b => b.date ≤ a.date) ∧
      (rows ++ rest).Perm (closedDayStore.attendance.filter (fun r => decide (r.user_id = target))) := by
  obtain ⟨target, rows, rest, h1, h2, h3, h4, h5, h6, _⟩ :=
    list_attendance_most_recent closedDayStore ⟨1, "admin"⟩ (some 3)
  exact ⟨target, rows, rest, h1, h2, h3, h4, h5, h6⟩

/-! ## Leave request listing -/

theorem filter_unique_user (users : List User) (hpk : (users.map (fun u => u.id)).Nodup)
    (u : User) (hu : u ∈ users) (k : Nat) (hk : u.id = k) :
    users.filter (fun v => decide (k = v.id)) = [u] := by
  induction users with
  | nil => cases hu
  | cons v vs ih =>
    rw [List.map_cons, List.nodup_cons] at hpk
    rcases List.mem_cons.1 hu with h | h
    · subst h
      have hnone : vs.filter (fun v => decide (k = v.id)) = [] := by
        rw [List.filter_eq_nil_iff]
        intro w hw hdec
        have hwk : k = w.id := of_decide_eq_true hdec
        exact hpk.1 (List.mem_map.2 ⟨w, hw, by rw [hk, hwk]⟩)
      simp [List.filter_cons, hk, hnone]
    · have hne : ¬ k = v.id := by
        intro hkv
        exact hpk.1 (List.mem_map.2 ⟨u, h, by rw [hk, hkv]⟩)
      simp only [List.filter_cons, hne, decide_False, Bool.false_eq_true, if_false]
      exact ih hpk.2 h

theorem joinUsers_requests (users : List User) (hpk : (users.map (fun u => u.id)).Nodup)
    (requests : List LeaveRequest)
    (hfk : ∀ lr ∈ requests, ∃ u ∈ users, u.id = lr.user_id) :
    (joinUsers users requests).map (fun row => row.request) = requests := by
  induction requests with
  | nil => rfl
  | cons lr lrs ih =>
    obtain ⟨u, hu, hid⟩ := hfk lr (List.mem_cons_self _ _)
    have htail := ih (fun x hx => hfk x (List.mem_cons_of_mem _ hx))
    have hone := filter_unique_user users hpk u hu lr.user_id hid
    unfold joinUsers at htail ⊢
    rw [List.flatMap_cons, List.map_append, htail, hone]
    rfl

theorem orderByApplied_sorted (rows : List LeaveRow) :
    (orderByApplied rows).Sorted (fun a b => b.request.applied_at ≤ a.request.applied_at) := by
  haveI : IsTotal LeaveRow (fun a b => b.request.applied_at ≤ a.request.applied_at) :=
    ⟨fun a b => Nat.le_total b.request.applied_at a.request.applied_at⟩
  haveI : IsTrans LeaveRow (fun a b => b.request.applied_at ≤ a.request.applied_at) :=
    ⟨fun _ _ _ hab hbc => Nat.le_trans hbc hab⟩
  exact List.sorted_insertionSort _ rows

theorem orderByApplied_requests (rows : List LeaveRow) :
    ((orderByApplied rows).map (fun row => row.request)).Perm
      (rows.map (fun row => row.request)) :=
  (List.perm_insertionSort _ rows).map _

/-- Table `users` with admin 1 and employee 2. -/
def sampleUsers : List User :=
  [⟨1, some "EMP001", "Admin User", "admin@company.com", "x", "admin", some "IT", 0⟩,
    ⟨2, some "EMP002", "Second User", "second@company.com", "y", "employee", none, 10⟩]

/-- Requests of employee 2 (time 5000) and of admin 1 (time 6000). -/
def twoRequestsStore : Store :=
  run utcZone [.submit ⟨2, "employee"⟩ "sick" 105 106 "flu" 5000,
    .submit ⟨1, "admin"⟩ "casual" 120 121 "trip" 6000]

/-- C12: the listing of leave requests is ordered by `applied_at` descending.
For an admin it holds every stored leave request exactly once, given the keys
of the schema (`users.id` is a primary key and every request's `user_id` is the
id of a row of `users`); for a non-admin it holds exactly the stored requests
whose `user_id` is the requester's id. -/
theorem list_requests_scoped (users : List User) (s : Store) (user : AuthUser) :
    ∃ rows : List LeaveRow,
      listRequests users s user = .json (.leaveRequests rows) ∧
      rows.Sorted (fun a b => b.request.applied_at ≤ a.request.applied_at) ∧
      (user.role = "admin" → (users.map (fun u => u.id)).Nodup →
        (∀ lr ∈ s.leave_requests, ∃ u ∈ users, u.id = lr.user_id) →
        (rows.map (fun row => row.request)).Perm s.leave_requests) ∧
      (user.role ≠ "admin" →
        (rows.map (fun row => row.request)).Perm
          (s.leave_requests.filter (fun r => decide (r.user_id = user.id)))) := by
  by_cases hadmin : user.role = "admin"
  · refine ⟨orderByApplied (joinUsers users s.leave_requests), by simp [listRequests, hadmin],
      orderByApplied_sorted _, ?_, fun h => absurd hadmin h⟩
    intro _ hpk hfk
    have h := orderByApplied_requests (joinUsers users s.leave_requests)
    rw [joinUsers_requests users hpk s.leave_requests hfk] at h
    exact h
  · refine ⟨orderByApplied ((s.leave_requests.filter
        (fun r => decide (r.user_id = user.id))).map (fun lr => ⟨lr, none⟩)),
      by simp [listRequests, hadmin], orderByApplied_sorted _, fun h => absurd h hadmin, ?_⟩
    intro _
    have h := orderByApplied_requests ((s.leave_requests.filter
      (fun r => decide (r.user_id = user.id))).map (fun lr => ⟨lr, none⟩))
    have hid : ((s.leave_requests.filter (fun r => decide (r.user_id = user.id))).map
        (fun lr => (⟨lr, none⟩ : LeaveRow))).map (fun row => row.request) =
        s.leave_requests.filter (fun r => decide (r.user_id = user.id)) := by
      rw [List.map_map]
      exact List.map_id _
    rw [hid] at h
    exact h

/-- C12 at the two stored requests, listed for admin 1 and for employee 2. -/
theorem list_requests_scoped_witness :
    (∃ rows : List LeaveRow,
      listRequests sampleUsers twoRequestsStore ⟨1, "admin"⟩ = .json (.leaveRequests rows) ∧
      (rows.map (fun row => row.request)).Perm twoRequestsStore.leave_requests) ∧
    (∃ rows : List LeaveRow,
      listRequests sampleUsers twoRequestsStore ⟨2, "employee"⟩ = .json (.leaveRequests rows) ∧
      (rows.map (fun row => row.request)).Perm
        (twoRequestsStore.leave_requests.filter (fun r => decide (r.user_id = 2)))) := by
  constructor
  · obtain ⟨rows, h1, _, h3, _⟩ := list_requests_scoped sampleUsers twoRequestsStore ⟨1, "admin"⟩
    exact ⟨rows, h1, h3 rfl (by decide) (by decide)⟩
  · obtain ⟨rows, h1, _, _, h4⟩ :=
      list_requests_scoped sampleUsers twoRequestsStore ⟨2, "employee"⟩
    exact ⟨rows, h1, h4 (by decide)⟩

/-! ## Dashboard: present today -/

/-- The attendance records dated `today` with `punch_in` set. -/
def punchedToday (s : Store) (today : Nat) : List AttendanceRecord :=
  s.attendance.filter (fun r => decide (r.date = today ∧ r.punch_in ≠ none))

/-- The distinct users with a punch-in recorded for `today`. -/
def presentUsers (s : Store) (today : Nat) : List Nat :=
  ((punchedToday s today).map (fun r => r.user_id)).dedup

/-- Number of employees (rows of `users` with role `employee`) with a punch-in
recorded for `today`. -/
def presentEmployees (users : List User) (s : Store) (today : Nat) : Nat :=
  users.countP (fun u => decide (u.role = "employee" ∧ u.id ∈ presentUsers s today))

/-- Users 2, 3 and 4 each punch in once on day 100. -/
def threePresentStore : Store :=
  run utcZone [.punch ⟨2, "employee"⟩ "in" 100 32400, .punch ⟨3, "employee"⟩ "in" 100 32500,
    .punch ⟨4, "employee"⟩ "in" 100 32600]

/-- C14, as stated, fails: employee 2 punched in twice on day 100; one employee
(one distinct user) has a punch-in for that day, yet `presentToday` is 2. -/
theorem present_today_counts_records :
    presentEmployees sampleUsers (run utcZone twoPunchIns) 100 = 1 ∧
      (presentUsers (run utcZone twoPunchIns) 100).length = 1 ∧
      (adminDashboard sampleUsers (run utcZone twoPunchIns) 100).presentToday = 2 := by
  decide

/-- C14, amended: `presentToday` is the number of attendance records dated the
current date with `punch_in` set (of any user). It is at least the number of
distinct users with such a record, and equal to it when no user has more than
one such record. -/
theorem present_today_eq_records (users : List User) (s : Store) (today : Nat) :
    (adminDashboard users s today).presentToday = (punchedToday s today).length ∧
      (presentUsers s today).length ≤ (adminDashboard users s today).presentToday ∧
      (((punchedToday s today).map (fun r => r.user_id)).Nodup →
        (adminDashboard users s today).presentToday = (presentUsers s today).length) := by
  have hcount : (adminDashboard users s today).presentToday = (punchedToday s today).length := by
    simp [adminDashboard, presentToday, punchedToday, List.countP_eq_length_filter]
  refine ⟨hcount, ?_, ?_⟩
  · rw [hcount]
    have h := (List.dedup_sublist ((punchedToday s today).map (fun r => r.user_id))).length_le
    simpa [presentUsers] using h
  · intro hnd
    rw [hcount, presentUsers, hnd.dedup, List.length_map]

/-- C14 amended, at three users each punched in once today: the count is 3. -/
theorem present_today_eq_records_witness :
    ((punchedToday threePresentStore 100).map (fun r => r.user_id)).Nodup ∧
      (presentUsers threePresentStore 100).length = 3 ∧
      (adminDashboard sampleUsers threePresentStore 100).presentToday = 3 := by
  have hnd : ((punchedToday threePresentStore 100).map (fun r => r.user_id)).Nodup := by decide
  have hlen : (presentUsers threePresentStore 100).length = 3 := by decide
  refine ⟨hnd, hlen, ?_⟩
  rw [(present_today_eq_records sampleUsers threePresentStore 100).2.2 hnd, hlen]

/-! ## Access gate -/

/-- A verifier accepting only the token `good`, issued to employee 2. -/
def sampleVerify (token : String) : Option AuthUser :=
  if token = "good" then some ⟨2, "employee"⟩ else none

/-- C15, as stated, fails: a token that is present but fails verification is
answered 403 `Invalid token`, not 401. -/
theorem invalid_token_is_403 :
    bearerToken (some "Bearer bad") = some "bad" ∧ sampleVerify "bad" = none ∧
      authenticateToken sampleVerify (some "Bearer bad") = .rejected 403 "Invalid token" := by
  decide

/-- C15, amended: a missing bearer token is answered 401 `Access token
required`, a token failing verification is answered 403 `Invalid token`; in
both cases the middleware answers itself and `next` is not called. The handler
runs only with the identity the verification returned. -/
theorem gate_rejects (verify : String → Option AuthUser) (authHeader : Option String) :
    (bearerToken authHeader = none →
        authenticateToken verify authHeader = .rejected 401 "Access token required") ∧
      (∀ token : String, bearerToken authHeader = some token → verify token = none →
        authenticateToken verify authHeader = .rejected 403 "Invalid token") ∧
      (∀ user : AuthUser, authenticateToken verify authHeader = .next user →
        ∃ token : String, bearerToken authHeader = some token ∧ verify token = some user) := by
  refine ⟨?_, ?_, ?_⟩
  · intro h
    simp [authenticateToken, h]
  · intro token h hv
    simp [authenticateToken, h, hv]
  · intro user h
    unfold authenticateToken at h
    cases htok : bearerToken authHeader with
    | none => simp [htok] at h
    | some token =>
      cases hver : verify token with
      | none => simp [htok, hver] at h
      | some u =>
        simp [htok, hver] at h
        exact ⟨token, rfl, by rw [hver, h]⟩

/-- C15 amended, at a request without header and at one with a bad token. -/
theorem gate_rejects_witness :
    authenticateToken sampleVerify none = .rejected 401 "Access token required" ∧
      authenticateToken sampleVerify (some "Bearer bad") = .rejected 403 "Invalid token" :=
  ⟨(gate_rejects sampleVerify none).1 rfl,
    (gate_rejects sampleVerify (some "Bearer bad")).2.1 "bad" (by decide) (by decide)⟩

/-! ## Punch-out: frame -/

theorem le_foldr_max (ids : List Nat) (seq : Nat) : ∀ x ∈ ids, x ≤ ids.foldr max seq := by
  induction ids with
  | nil => intro x hx; cases hx
  | cons a as ih =>
    intro x hx
    rw [List.foldr_cons]
    rcases List.mem_cons.1 hx with h | h
    · rw [h]; exact Nat.le_max_left _ _
    · exact Nat.le_trans (ih x h) (Nat.le_max_right _ _)

theorem nextId_not_mem (ids : List Nat) (seq : Nat) : nextId ids seq ∉ ids := by
  intro h
  have := le_foldr_max ids seq _ h
  unfold nextId at this
  omega

theorem closeRecord_id (id : Nat) (t : TimeOfDay) (h : HoursText) (r : AttendanceRecord) :
    (closeRecord id t h r).id = r.id := by
  unfold closeRecord
  split_ifs <;> rfl

theorem ids_nodup_step (zone : Zone) (s : Store) (req : Request)
    (hnd : (s.attendance.map (fun r => r.id)).Nodup) :
    ((step zone s req).attendance.map (fun r => r.id)).Nodup := by
  cases req with
  | punch user type today currentTime =>
    by_cases hin : type = "in"
    · subst hin
      simp only [step, punch, if_true, List.map_append, List.map_cons, List.map_nil]
      rw [List.nodup_append]
      refine ⟨hnd, List.nodup_singleton _, ?_⟩
      intro a ha hb
      rw [List.mem_singleton] at hb
      rw [hb] at ha
      exact nextId_not_mem _ _ ha
    · simp only [step, punch, hin, if_false]
      cases hopen : openRecord s user.id today with
      | none => exact hnd
      | some record =>
        have hmap : (s.attendance.map (closeRecord record.id currentTime
            (hoursText zone today record.punch_in currentTime))).map (fun r => r.id) =
            s.attendance.map (fun r => r.id) := by
          rw [List.map_map]
          exact List.map_congr_left (fun r _ => closeRecord_id _ _ _ r)
        simp only [hmap]
        exact hnd
  | submit user leave_type start_date end_date reason now => exact hnd
  | resolve user id status =>
    simp only [step, resolveLeave]
    split_ifs <;> exact hnd

theorem ids_nodup_runFrom (zone : Zone) (reqs : List Request) : ∀ s : Store,
    (s.attendance.map (fun r => r.id)).Nodup →
      ((runFrom zone s reqs).attendance.map (fun r => r.id)).Nodup := by
  induction reqs with
  | nil => intro s h; exact h
  | cons req reqs ih =>
    intro s h
    exact ih (step zone s req) (ids_nodup_step zone s req h)

theorem map_closeRecord_split (pre post : List AttendanceRecord) (record : AttendanceRecord)
    (t : TimeOfDay) (h : HoursText)
    (hnd : ((pre ++ record :: post).map (fun r => r.id)).Nodup) :
    (pre ++ record :: post).map (closeRecord record.id t h) =
      pre ++ { record with punch_out := some t, total_hours := some h } :: post := by
  have hother : ∀ r ∈ pre ++ post, r.id ≠ record.id := by
    intro r hr heq
    rw [List.map_append, List.map_cons] at hnd
    have hmid := List.nodup_middle.1 hnd
    rw [List.nodup_cons] at hmid
    apply hmid.1
    rw [← List.map_append, ← heq]
    exact List.mem_map_of_mem _ hr
  have hkeep : ∀ l : List AttendanceRecord, (∀ r ∈ l, r.id ≠ record.id) →
      l.map (closeRecord record.id t h) = l := by
    intro l hl
    conv_rhs => rw [← List.map_id l]
    exact List.map_congr_left (fun r hr => by simp [closeRecord, hl r hr])
  rw [List.map_append, List.map_cons,
    hkeep pre (fun r hr => hother r (List.mem_append_left _ hr)),
    hkeep post (fun r hr => hother r (List.mem_append_right _ hr))]
  simp [closeRecord]

/-- C16: in a store reached from the empty store, a punch-out of user `u`
answered with success changes exactly one attendance record, in place: the
record belongs to `u`, has today's date and had `punch_out` null; it gets
`punch_out` and `total_hours` and keeps its other fields; the records before
and after it, the table length and the rest of the store are unchanged. -/
theorem punch_out_frame (zone : Zone) (reqs : List Request) (user : AuthUser) (today : Nat)
    (t : TimeOfDay) (body : Body)
    (hok : (punch zone (run zone reqs) user "out" today t).1 = .json body) :
    ∃ (pre post : List AttendanceRecord) (record : AttendanceRecord) (hours : HoursText),
      (run zone reqs).attendance = pre ++ record :: post ∧
      record.user_id = user.id ∧ record.date = today ∧ record.punch_out = none ∧
      body = .punchedOut t hours ∧
      (punch zone (run zone reqs) user "out" today t).2 =
        { run zone reqs with
          attendance :=
            pre ++ { record with punch_out := some t, total_hours := some hours } :: post } ∧
      ({ record with punch_out := some t, total_hours := some hours } : AttendanceRecord) ≠
        record := by
  have hnd : ((run zone reqs).attendance.map (fun r => r.id)).Nodup :=
    ids_nodup_runFrom zone reqs emptyStore (by simp [emptyStore])
  have hne : ¬ ("out" = "in") := by decide
  cases hopen : openRecord (run zone reqs) user.id today with
  | none =>
    simp [punch, hne, hopen] at hok
  | some record =>
    have hpred := List.find?_some hopen
    have hmem := List.mem_of_find?_eq_some hopen
    simp only [decide_eq_true_eq] at hpred
    obtain ⟨pre, post, hsplit⟩ := List.append_of_mem hmem
    rw [punch_out_eq zone (run zone reqs) user today t record hopen] at hok ⊢
    rw [hsplit] at hnd
    refine ⟨pre, post, record, hoursText zone today record.punch_in t, hsplit, hpred.1, hpred.2.1,
      hpred.2.2, ?_, ?_, ?_⟩
    · simp only [Response.json.injEq] at hok
      exact hok.symm
    · simp only [hsplit]
      rw [map_closeRecord_split pre post record t _ hnd]
    · intro heq
      have := congrArg AttendanceRecord.punch_out heq
      simp [hpred.2.2] at this

/-- C16 at a store with two open records of user 2: the punch-out closes the
first one and leaves the second and the record of user 3 as they are. -/
theorem punch_out_frame_witness :
    (punch utcZone (run utcZone busyRequests) ⟨2, "employee"⟩ "out" 100 63000).1 =
        .json (.punchedOut 63000 (.num false 850)) ∧
      ∃ (pre post : List AttendanceRecord) (record : AttendanceRecord) (hours : HoursText),
        (run utcZone busyRequests).attendance = pre ++ record :: post ∧
        record.user_id = 2 ∧ record.date = 100 ∧ record.punch_out = none ∧
        Body.punchedOut 63000 (.num false 850) = .punchedOut 63000 hours ∧
        (punch utcZone (run utcZone busyRequests) ⟨2, "employee"⟩ "out" 100 63000).2 =
          { run utcZone busyRequests with
            attendance :=
              pre ++ { record with punch_out := some 63000, total_hours := some hours } :: post } ∧
        ({ record with punch_out := some 63000, total_hours := some hours } : AttendanceRecord) ≠
          record :=
  ⟨by decide,
    punch_out_frame utcZone busyRequests ⟨2, "employee"⟩ 100 63000 (.punchedOut 63000 (.num false 850))
      (by decide)⟩

/-! ## Leave requests: owners exist -/

/-- The verified identity a request carries. -/
def requester : Request → AuthUser
  | .punch user _ _ _ => user
  | .submit user _ _ _ _ _ => user
  | .resolve user _ _ => user

theorem setStatus_user_id (id : Nat) (status : String) (uid : Nat) (r : LeaveRequest) :
    (setStatus id status uid r).user_id = r.user_id := by
  unfold setStatus
  split_ifs <;> rfl

theorem owners_step (zone : Zone) (users : List User) (s : Store) (req : Request)
    (hreq : ∃ u ∈ users, u.id = (requester req).id)
    (hfk : ∀ lr ∈ s.leave_requests, ∃ u ∈ users, u.id = lr.user_id) :
    ∀ lr ∈ (step zone s req).leave_requests, ∃ u ∈ users, u.id = lr.user_id := by
  cases req with
  | punch user type today currentTime =>
    have hsame : (step zone s (.punch user type today currentTime)).leave_requests =
        s.leave_requests := by
      simp only [step, punch]
      split_ifs
      · rfl
      · cases openRecord s user.id today <;> rfl
    rw [hsame]
    exact hfk
  | submit user leave_type start_date end_date reason now =>
    intro lr hlr
    simp only [step, submitLeave, List.mem_append, List.mem_singleton] at hlr
    rcases hlr with h | h
    · exact hfk lr h
    · rw [h]
      exact hreq
  | resolve user id status =>
    intro lr hlr
    simp only [step, resolveLeave] at hlr
    split_ifs at hlr
    · exact hfk lr hlr
    · rw [List.mem_map] at hlr
      obtain ⟨r0, hr0, rfl⟩ := hlr
      rw [setStatus_user_id]
      exact hfk r0 hr0

/-- In a store reached by requests whose tokens all belong to rows of `users`,
every leave request's `user_id` is the id of a row of `users`. -/
theorem owners_runFrom (zone : Zone) (users : List User) (reqs : List Request) : ∀ s : Store,
    (∀ req ∈ reqs, ∃ u ∈ users, u.id = (requester req).id) →
    (∀ lr ∈ s.leave_requests, ∃ u ∈ users, u.id = lr.user_id) →
    ∀ lr ∈ (runFrom zone s reqs).leave_requests, ∃ u ∈ users, u.id = lr.user_id := by
  induction reqs with
  | nil => intro s _ hfk; exact hfk
  | cons req reqs ih =>
    intro s hreqs hfk
    exact ih (step zone s req) (fun r hr => hreqs r (List.mem_cons_of_mem _ hr))
      (owners_step zone users s req (hreqs req (List.mem_cons_self _ _)) hfk)

end AttendanceServer
